import Mathlib

/-!
Verification of the mflod FLOD-packet codec (`src/mflod/crypto/crypto.py`).

Bytes are modelled as `List Nat` (each element a byte value).  The external
cryptographic library (`cryptography`) is modelled by an abstract `Backend`
record whose correctness properties (OAEP round trip, output lengths, PSS
verification) appear as hypotheses of the theorems, and the process CSPRNG
(`os.urandom`) by an `Entropy` record indexed by call site.  The DER codec
(`pyasn1` together with the repository module `mflod/crypto/asn1_structures.py`,
which is not part of the sources under verification) is modelled concretely:
definite-length TLVs with canonical short/long form lengths, structures and
field order exactly as in the specification's data model.
-/

namespace Mflod

/-- Big-endian base-256 digits of a natural number (at least one digit). -/
def natToBytes (n : Nat) : List Nat :=
  if _h : n < 256 then [n] else natToBytes (n / 256) ++ [n % 256]
termination_by n
decreasing_by
  exact Nat.div_lt_self (by omega) (by omega)

/-- Read back a big-endian base-256 digit list. -/
def bytesToNat (bs : List Nat) : Nat :=
  bs.foldl (fun acc b => acc * 256 + b) 0

/-- DER length field: short form below 128, long form above. -/
def derLen (n : Nat) : List Nat :=
  if n < 128 then [n] else (128 + (natToBytes n).length) :: natToBytes n

/-- DER tag-length-value encoding. -/
def tlv (t : Nat) (c : List Nat) : List Nat :=
  t :: (derLen c.length ++ c)

/-- Parse a DER length field, returning the length and the remaining bytes. -/
def parseLen : List Nat → Option (Nat × List Nat)
  | [] => none
  | b :: rest =>
    if b < 128 then some (b, rest)
    else
      let m := b - 128
      if rest.length < m then none
      else some (bytesToNat (rest.take m), rest.drop m)

/-- Parse one TLV, returning tag, content and the remaining bytes. -/
def parseTLV (bs : List Nat) : Option (Nat × List Nat × List Nat) :=
  match bs with
  | [] => none
  | t :: rest =>
    match parseLen rest with
    | none => none
    | some (n, rest2) =>
      if rest2.length < n then none
      else some (t, rest2.take n, rest2.drop n)

theorem natToBytes_ne_nil (n : Nat) : natToBytes n ≠ [] := by
  rw [natToBytes]
  split <;> simp

theorem natToBytes_length_pos (n : Nat) : 1 ≤ (natToBytes n).length := by
  have := natToBytes_ne_nil n
  cases h : natToBytes n with
  | nil => exact absurd h this
  | cons a l => simp

theorem bytesToNat_append_single (xs : List Nat) (b : Nat) :
    bytesToNat (xs ++ [b]) = bytesToNat xs * 256 + b := by
  simp [bytesToNat, List.foldl_append]

theorem bytesToNat_natToBytes (n : Nat) : bytesToNat (natToBytes n) = n := by
  induction n using Nat.strong_induction_on with
  | _ n ih =>
    rw [natToBytes]
    split
    · simp [bytesToNat]
    · rename_i h
      rw [bytesToNat_append_single, ih (n / 256) (Nat.div_lt_self (by omega) (by omega))]
      omega

theorem natToBytes_length_le (j n : Nat) (h1 : 1 ≤ j) (h2 : n < 256 ^ j) :
    (natToBytes n).length ≤ j := by
  induction j generalizing n with
  | zero => omega
  | succ j ih =>
    rw [natToBytes]
    split
    · simp
    · rename_i h
      have hj : 1 ≤ j := by
        rcases Nat.eq_or_lt_of_le h1 with h' | h'
        · exfalso; rw [← h'] at h2; simp [pow_succ, pow_zero] at h2; omega
        · omega
      have hdiv : n / 256 < 256 ^ j := by
        rw [Nat.div_lt_iff_lt_mul (by norm_num)]
        calc n < 256 ^ (j + 1) := h2
        _ = 256 ^ j * 256 := by rw [pow_succ]
      have := ih (n / 256) hj hdiv
      simp only [List.length_append, List.length_cons, List.length_nil]
      omega

theorem parseLen_derLen (n : Nat) (r : List Nat) : parseLen (derLen n ++ r) = some (n, r) := by
  by_cases h : n < 128
  · simp [derLen, h, parseLen]
  · have hlen : (natToBytes n ++ r).length = (natToBytes n).length + r.length := by simp
    have h1 : ¬ (128 + (natToBytes n).length < 128) := by omega
    have h2 : 128 + (natToBytes n).length - 128 = (natToBytes n).length := by omega
    simp only [derLen, h, if_false, List.cons_append, parseLen, h1, if_false, h2]
    rw [if_neg (by simp), List.take_left, List.drop_left, bytesToNat_natToBytes]

theorem parseTLV_tlv (t : Nat) (c r : List Nat) :
    parseTLV (tlv t c ++ r) = some (t, c, r) := by
  simp only [tlv, List.cons_append, List.append_assoc, parseTLV, parseLen_derLen]
  rw [if_neg (by simp), List.take_left, List.drop_left]

theorem parseTLV_tlv_self (t : Nat) (c : List Nat) : parseTLV (tlv t c) = some (t, c, []) := by
  have := parseTLV_tlv t c []
  simpa using this

theorem tlv_length (t : Nat) (c : List Nat) :
    (tlv t c).length = 1 + (derLen c.length).length + c.length := by
  simp [tlv]; omega

/-- Modelled from the spec: the algorithm-identifier OIDs fixed by
`mflod/crypto/constants.py` (not among the sources under verification):
RSASSA-PSS, the project-specific no-sign sentinel, id-rsaes-oaep, SHA-1 and
AES-128-CBC.  Only their distinctness matters to the protocol logic. -/
inductive OID where
  | rsassaPss
  | noSign
  | idRsaesOaep
  | sha1
  | aes128cbc
deriving DecidableEq

/-- Modelled from the spec: an injective byte encoding of each OID constant. -/
def oidBytes : OID → List Nat
  | .rsassaPss => [1]
  | .noSign => [2]
  | .idRsaesOaep => [3]
  | .sha1 => [4]
  | .aes128cbc => [5]

def bytesToOid : List Nat → Option OID
  | [1] => some OID.rsassaPss
  | [2] => some OID.noSign
  | [3] => some OID.idRsaesOaep
  | [4] => some OID.sha1
  | [5] => some OID.aes128cbc
  | _ => none

theorem bytesToOid_oidBytes (o : OID) : bytesToOid (oidBytes o) = some o := by
  cases o <;> rfl

/-- Modelled from the spec: `AlgorithmIdentifier` — a SEQUENCE of an OID and
NULL parameters (`mflod/crypto/asn1_structures.py` is not among the sources
under verification; the layout follows the specification's data model). -/
def encodeAlgId (o : OID) : List Nat :=
  tlv 0x30 (tlv 0x06 (oidBytes o) ++ tlv 0x05 [])

def decodeAlgId (bs : List Nat) : Option (OID × List Nat) :=
  match parseTLV bs with
  | none => none
  | some (_, c, rest) =>
    match parseTLV c with
    | none => none
    | some (_, ob, _) =>
      match bytesToOid ob with
      | none => none
      | some o => some (o, rest)

theorem decodeAlgId_encodeAlgId (o : OID) (r : List Nat) :
    decodeAlgId (encodeAlgId o ++ r) = some (o, r) := by
  simp only [encodeAlgId, decodeAlgId, parseTLV_tlv, parseTLV_tlv_self, bytesToOid_oidBytes]

/-- Modelled from the spec: the plaintext header `MPHeader` with its six fields
in specification order. -/
structure MPHeader where
  idString : List Nat
  signOid : OID
  pgpKeyId : List Nat
  signature : List Nat
  hmacKey : List Nat
  aesKey : List Nat
deriving DecidableEq

/-- Modelled from the spec: `MPContent` — timestamp string and payload. -/
structure MPContent where
  timestamp : List Nat
  content : List Nat
deriving DecidableEq

/-- Modelled from the spec: `MPContentContainer` — IV, algorithm identifier and
AES ciphertext. -/
structure MPContentContainer where
  iv : List Nat
  encAlg : OID
  encryptedContent : List Nat
deriving DecidableEq

/-- Modelled from the spec: `MPHMACContainer` — digest algorithm and tag. -/
structure MPHMACContainer where
  digestAlg : OID
  digest : List Nat
deriving DecidableEq

/-- Modelled from the spec: `MPHeaderContainer` — encryption algorithm and the
chunked RSA ciphertext of the DER-encoded header. -/
structure MPHeaderContainer where
  encAlg : OID
  encryptedHeader : List Nat
deriving DecidableEq

/-- Modelled from the spec: the outer `MessagePacket`. -/
structure MessagePacket where
  protocolVersion : Nat
  headerBlock : MPHeaderContainer
  hmacBlock : MPHMACContainer
  contentBlock : MPContentContainer
deriving DecidableEq

/-- Content bytes of the `MPHeader` SEQUENCE. -/
def headerBody (h : MPHeader) : List Nat :=
  tlv 0x04 h.idString ++ (encodeAlgId h.signOid ++ (tlv 0x04 h.pgpKeyId ++
    (tlv 0x04 h.signature ++ (tlv 0x04 h.hmacKey ++ tlv 0x04 h.aesKey))))

def encodeMPHeader (h : MPHeader) : List Nat :=
  tlv 0x30 (headerBody h)

def decodeMPHeader (bs : List Nat) : Option MPHeader :=
  match parseTLV bs with
  | none => none
  | some (_, c, _) =>
    match parseTLV c with
    | none => none
    | some (_, idS, r1) =>
      match decodeAlgId r1 with
      | none => none
      | some (alg, r2) =>
        match parseTLV r2 with
        | none => none
        | some (_, pid, r3) =>
          match parseTLV r3 with
          | none => none
          | some (_, sig, r4) =>
            match parseTLV r4 with
            | none => none
            | some (_, hk, r5) =>
              match parseTLV r5 with
              | none => none
              | some (_, ak, _) => some ⟨idS, alg, pid, sig, hk, ak⟩

theorem decodeMPHeader_encodeMPHeader (h : MPHeader) :
    decodeMPHeader (encodeMPHeader h) = some h := by
  simp only [encodeMPHeader, headerBody, decodeMPHeader, parseTLV_tlv_self, parseTLV_tlv,
    decodeAlgId_encodeAlgId]

def encodeMPContent (c : MPContent) : List Nat :=
  tlv 0x30 (tlv 0x0C c.timestamp ++ tlv 0x0C c.content)

def decodeMPContent (bs : List Nat) : Option MPContent :=
  match parseTLV bs with
  | none => none
  | some (_, c, _) =>
    match parseTLV c with
    | none => none
    | some (_, ts, r1) =>
      match parseTLV r1 with
      | none => none
      | some (_, ct, _) => some ⟨ts, ct⟩

theorem decodeMPContent_encodeMPContent (c : MPContent) :
    decodeMPContent (encodeMPContent c) = some c := by
  simp only [encodeMPContent, decodeMPContent, parseTLV_tlv_self, parseTLV_tlv]

def encodeMPContentContainer (c : MPContentContainer) : List Nat :=
  tlv 0x30 (tlv 0x04 c.iv ++ (encodeAlgId c.encAlg ++ tlv 0x04 c.encryptedContent))

def decodeMPContentContainer (bs : List Nat) : Option (MPContentContainer × List Nat) :=
  match parseTLV bs with
  | none => none
  | some (_, c, rest) =>
    match parseTLV c with
    | none => none
    | some (_, iv, r1) =>
      match decodeAlgId r1 with
      | none => none
      | some (alg, r2) =>
        match parseTLV r2 with
        | none => none
        | some (_, ec, _) => some (⟨iv, alg, ec⟩, rest)

theorem decodeMPContentContainer_enc (c : MPContentContainer) (r : List Nat) :
    decodeMPContentContainer (encodeMPContentContainer c ++ r) = some (c, r) := by
  simp only [encodeMPContentContainer, decodeMPContentContainer, parseTLV_tlv,
    parseTLV_tlv_self, decodeAlgId_encodeAlgId]

theorem decodeMPContentContainer_enc_self (c : MPContentContainer) :
    decodeMPContentContainer (encodeMPContentContainer c) = some (c, []) := by
  have := decodeMPContentContainer_enc c []
  simpa using this

def encodeMPHMACContainer (c : MPHMACContainer) : List Nat :=
  tlv 0x30 (encodeAlgId c.digestAlg ++ tlv 0x04 c.digest)

def decodeMPHMACContainer (bs : List Nat) : Option (MPHMACContainer × List Nat) :=
  match parseTLV bs with
  | none => none
  | some (_, c, rest) =>
    match decodeAlgId c with
    | none => none
    | some (alg, r1) =>
      match parseTLV r1 with
      | none => none
      | some (_, d, _) => some (⟨alg, d⟩, rest)

theorem decodeMPHMACContainer_enc (c : MPHMACContainer) (r : List Nat) :
    decodeMPHMACContainer (encodeMPHMACContainer c ++ r) = some (c, r) := by
  simp only [encodeMPHMACContainer, decodeMPHMACContainer, parseTLV_tlv,
    parseTLV_tlv_self, decodeAlgId_encodeAlgId]

def encodeMPHeaderContainer (c : MPHeaderContainer) : List Nat :=
  tlv 0x30 (encodeAlgId c.encAlg ++ tlv 0x04 c.encryptedHeader)

def decodeMPHeaderContainer (bs : List Nat) : Option (MPHeaderContainer × List Nat) :=
  match parseTLV bs with
  | none => none
  | some (_, c, rest) =>
    match decodeAlgId c with
    | none => none
    | some (alg, r1) =>
      match parseTLV r1 with
      | none => none
      | some (_, eh, _) => some (⟨alg, eh⟩, rest)

theorem decodeMPHeaderContainer_enc (c : MPHeaderContainer) (r : List Nat) :
    decodeMPHeaderContainer (encodeMPHeaderContainer c ++ r) = some (c, r) := by
  simp only [encodeMPHeaderContainer, decodeMPHeaderContainer, parseTLV_tlv,
    parseTLV_tlv_self, decodeAlgId_encodeAlgId]

def encodeMessagePacket (p : MessagePacket) : List Nat :=
  tlv 0x30 (tlv 0x02 (natToBytes p.protocolVersion) ++
    (encodeMPHeaderContainer p.headerBlock ++
      (encodeMPHMACContainer p.hmacBlock ++ encodeMPContentContainer p.contentBlock)))

def decodeMessagePacket (bs : List Nat) : Option MessagePacket :=
  match parseTLV bs with
  | none => none
  | some (_, c, _) =>
    match parseTLV c with
    | none => none
    | some (_, ver, r1) =>
      match decodeMPHeaderContainer r1 with
      | none => none
      | some (hb, r2) =>
        match decodeMPHMACContainer r2 with
        | none => none
        | some (hm, r3) =>
          match decodeMPContentContainer r3 with
          | none => none
          | some (cb, _) => some ⟨bytesToNat ver, hb, hm, cb⟩

theorem decodeMessagePacket_enc (p : MessagePacket) :
    decodeMessagePacket (encodeMessagePacket p) = some p := by
  simp only [encodeMessagePacket, decodeMessagePacket, parseTLV_tlv_self, parseTLV_tlv,
    decodeMPHeaderContainer_enc, decodeMPHMACContainer_enc, decodeMPContentContainer_enc_self,
    bytesToNat_natToBytes]

/-- An RSA private key, identified abstractly; `key_size` is the modulus size
in bits as exposed by the library's `key_size` attribute. -/
structure RSAPrivateKey where
  id : Nat
  key_size : Nat
deriving DecidableEq

/-- An RSA public key, identified abstractly. -/
structure RSAPublicKey where
  id : Nat
  key_size : Nat
deriving DecidableEq

/-- Abstract model of the cryptographic primitives used by `crypto.py`
(the external `cryptography` library, assumed correct by the specification):
RSA-OAEP block encryption and decryption, AES-128-CBC with PKCS#7,
HMAC-SHA1, and RSASSA-PSS signing and verification.  Fallible primitives
return `Option`, `none` standing for the library raising an exception. -/
structure Backend where
  rsaEncrypt : List Nat → RSAPublicKey → List Nat
  rsaDecrypt : List Nat → RSAPrivateKey → Option (List Nat)
  aesEncrypt : List Nat → List Nat → List Nat → List Nat
  aesDecrypt : List Nat → List Nat → List Nat → Option (List Nat)
  hmacSha1 : List Nat → List Nat → List Nat
  pssSign : List Nat → RSAPrivateKey → List Nat
  pssVerify : List Nat → RSAPublicKey → List Nat → Bool

/-- Correctness of RSA-OAEP on a matching key pair: ciphertext blocks have the
size of the modulus and decryption inverts encryption for plaintexts within
the OAEP bound. -/
def Backend.RsaPairOk (B : Backend) (sk : RSAPrivateKey) (pk : RSAPublicKey) : Prop :=
  sk.key_size = pk.key_size ∧
  (∀ pt : List Nat, pt.length ≤ pk.key_size / 8 - 42 →
    (B.rsaEncrypt pt pk).length = pk.key_size / 8) ∧
  (∀ pt : List Nat, pt.length ≤ pk.key_size / 8 - 42 →
    B.rsaDecrypt (B.rsaEncrypt pt pk) sk = some pt)

/-- Correctness of AES-CBC/PKCS#7: decryption inverts encryption. -/
def Backend.AesOk (B : Backend) : Prop :=
  ∀ pt key iv : List Nat, B.aesDecrypt (B.aesEncrypt pt key iv) key iv = some pt

/-- Model of `os.urandom`: one byte string per call site (first index) and
requested size (second index). -/
structure Entropy where
  rand : Nat → Nat → List Nat

/-- A sound entropy source returns byte strings of the requested length. -/
def Entropy.Ok (e : Entropy) : Prop :=
  ∀ i n : Nat, (e.rand i n).length = n

/-- Result of `KeyManager.get_pk_by_pgp_id`: the source collapses a single
public key, a tuple of public keys, `None`, or (erroneously) some other
collection such as a list into one dynamically-typed return slot. -/
inductive LookupResult where
  | single (pk : RSAPublicKey)
  | absent
  | tupleOf (pks : List RSAPublicKey)
  | listOf (pks : List RSAPublicKey)
deriving DecidableEq

/-- The `KeyProvider` collaborator (`key_manager` argument of
`disassemble_message_packet`): the finite trial-order list of private keys and
the PGP-id lookup. -/
structure KeyManager where
  yield_keys : List RSAPrivateKey
  get_pk_by_pgp_id : List Nat → LookupResult

/-- Extra value returned alongside exit codes 0 and 1. -/
inductive SignerInfo where
  | pgpId (id : List Nat)
  | plainKey (pk : RSAPublicKey)
deriving DecidableEq

/-- Terminal behaviour of `disassemble_message_packet`: a returned triple or
quadruple, one of the three documented exceptions, or an undocumented Python
runtime error (`UnboundLocalError`, `AssertionError`, or any other uncaught
exception such as a pyasn1 decode error, modelled as `otherError`). -/
inductive DisassembleResult where
  | ok3 (timestamp message : List Nat) (code : Nat)
  | ok4 (timestamp message : List Nat) (code : Nat) (signer : SignerInfo)
  | noMatchingRSAKey
  | signatureVerificationFailed
  | hmacVerificationFailed
  | unboundLocalError
  | assertionError
  | otherError
deriving DecidableEq

namespace Crypto

/-- The 4-byte identification string constant `FLOD` (`const.IS`). -/
def IS : List Nat := [0x46, 0x4C, 0x4F, 0x44]

/-- Modelled from the spec: the protocol version constant of
`mflod/crypto/constants.py` (not among the sources under verification), a
fixed small integer. -/
def PROTOCOL_VERSION : Nat := 1

/-- Embedding of `Crypto.__get_rsa_max_bytestring_size`. -/
def get_rsa_max_bytestring_size (key_size : Nat) : Nat :=
  key_size / 8 - 42

/-- Embedding of `Crypto.__calculate_der_id_string_offset`: reads the second
byte of the DER fragment and applies the short/long length-form rule.  (The
source indexes `der[1]`; the caller guards the out-of-range case, which in
Python would raise `IndexError`.) -/
def calculate_der_id_string_offset (der : List Nat) : Nat :=
  let len_spec := der.getD 1 0
  if len_spec &&& 0x80 = 0x80 then (len_spec &&& 0x7F) + 4 else 4

/-- Consecutive slices `xs[i : i + n]` for `i = 0, n, 2n, ...` — the list
comprehension used for RSA chunking in `assemble_message_packet` and for the
remaining-block loop in `disassemble_message_packet`. -/
def chunks (n : Nat) (xs : List Nat) : List (List Nat) :=
  if _h : n = 0 ∨ xs = [] then [] else xs.take n :: chunks n (xs.drop n)
termination_by xs.length
decreasing_by
  push_neg at _h
  obtain ⟨h1, h2⟩ := _h
  have hx : 0 < xs.length := List.length_pos.mpr h2
  simp only [List.length_drop]
  omega

/-- Embedding of `Crypto.__assemble_content_block` (the wall clock consulted
by the source for the timestamp is passed in as `now`, already formatted). -/
def assemble_content_block (B : Backend) (now content key iv : List Nat) :
    MPContentContainer :=
  let mp_content_pt_der := encodeMPContent { timestamp := now, content := content }
  { iv := iv
    encAlg := OID.aes128cbc
    encryptedContent := B.aesEncrypt mp_content_pt_der key iv }

/-- Embedding of `Crypto.__generate_hmac`. -/
def generate_hmac (B : Backend) (content key : List Nat) : List Nat :=
  B.hmacSha1 content key

/-- Embedding of `Crypto.__assemble_hmac_block`. -/
def assemble_hmac_block (B : Backend) (content key : List Nat) : MPHMACContainer :=
  { digestAlg := OID.sha1, digest := generate_hmac B content key }

/-- Embedding of `Crypto.__verify_hmac`: recompute and compare. -/
def verify_hmac (B : Backend) (hmac_blk : MPHMACContainer) (key content_blk : List Nat) :
    Bool :=
  decide (hmac_blk.digest = generate_hmac B content_blk key)

/-- Embedding of `Crypto.__disassemble_content_block`: AES-decrypt the
content, decode `MPContent`, and parse the timestamp (the
`strftime`/`strptime` pair of the source is modelled as the identity on the
formatted string). -/
def disassemble_content_block (B : Backend) (cc : MPContentContainer) (key : List Nat) :
    Option (List Nat × List Nat) :=
  match B.aesDecrypt cc.encryptedContent key cc.iv with
  | none => none
  | some pt =>
    match decodeMPContent pt with
    | none => none
    | some mc => some (mc.timestamp, mc.content)

/-- The `MPHeader` value built inside `assemble_message_packet`: a real
RSASSA-PSS signature over `AESKey + HMACKey` when signing, otherwise decoy
random bytes — `urandom(rsa_max_len)` for the signature and `urandom(8)` for
the PGP key id. -/
def assemble_mp_header (B : Backend) (e : Entropy) (recipient_pk : RSAPublicKey)
    (sign : Option (RSAPrivateKey × List Nat)) : MPHeader :=
  let aes_key := e.rand 1 16
  let hmac_key := e.rand 2 20
  let rsa_max_len := get_rsa_max_bytestring_size recipient_pk.key_size
  match sign with
  | some (sk, pid) =>
      { idString := IS
        signOid := OID.rsassaPss
        pgpKeyId := pid
        signature := B.pssSign (aes_key ++ hmac_key) sk
        hmacKey := hmac_key
        aesKey := aes_key }
  | none =>
      { idString := IS
        signOid := OID.noSign
        pgpKeyId := e.rand 4 8
        signature := e.rand 3 rsa_max_len
        hmacKey := hmac_key
        aesKey := aes_key }

/-- Embedding of `Crypto.assemble_message_packet` up to the final DER
encoding: random material drawn as `urandom(16), urandom(16), urandom(20)`
(IV, AES key, HMAC key), content and HMAC blocks built, header assembled,
DER-encoded and RSA-encrypted in chunks of `key_size // 8 - 42` bytes. -/
def assemble_message_packet_struct (B : Backend) (e : Entropy) (now msg_content : List Nat)
    (recipient_pk : RSAPublicKey) (sign : Option (RSAPrivateKey × List Nat)) :
    MessagePacket :=
  let iv := e.rand 0 16
  let aes_key := e.rand 1 16
  let hmac_key := e.rand 2 20
  let content_block := assemble_content_block B now msg_content aes_key iv
  let hmac_block := assemble_hmac_block B (encodeMPContentContainer content_block) hmac_key
  let rsa_max_len := get_rsa_max_bytestring_size recipient_pk.key_size
  let mp_header := assemble_mp_header B e recipient_pk sign
  let encoded_mp_header := encodeMPHeader mp_header
  let enc_header := (chunks rsa_max_len encoded_mp_header).foldl
      (fun acc blk => acc ++ B.rsaEncrypt blk recipient_pk) []
  { protocolVersion := PROTOCOL_VERSION
    headerBlock := { encAlg := OID.idRsaesOaep, encryptedHeader := enc_header }
    hmacBlock := hmac_block
    contentBlock := content_block }

/-- Embedding of `Crypto.assemble_message_packet`: the DER bytes of the
assembled packet. -/
def assemble_message_packet (B : Backend) (e : Entropy) (now msg_content : List Nat)
    (recipient_pk : RSAPublicKey) (sign : Option (RSAPrivateKey × List Nat)) : List Nat :=
  encodeMessagePacket (assemble_message_packet_struct B e now msg_content recipient_pk sign)

/-- The loop decrypting the remaining RSA blocks of the header
(`for rsa_block in [mp_header_ct[i : i + key_size] ...]` with
`range(key_size, len, key_size)`); a failing block decryption is an uncaught
exception in the source, modelled as `none`. -/
def decrypt_header_rest (B : Backend) (user_sk : RSAPrivateKey) (ct : List Nat) (k : Nat) :
    Option (List Nat) :=
  (chunks k (ct.drop k)).foldl
    (fun acc blk =>
      match acc, B.rsaDecrypt blk user_sk with
      | some a, some p => some (a ++ p)
      | _, _ => none)
    (some [])

/-- The outcome state machine applied after a successfully decrypted and
decoded header (`crypto.py` lines 330-416).  `none` models the Python control
flow falling off the end of the per-key loop body and continuing with the
next candidate key; `some r` models a `return` or a raised exception.
The source's `return` statements live only in the unsigned branch, so the
signed branches all fall through after updating `exit_code` / `signer_info`. -/
def process_header (B : Backend) (km : KeyManager) (mp : MessagePacket) (hdr : MPHeader) :
    Option DisassembleResult :=
  let sign_content := hdr.hmacKey ++ hdr.aesKey
  if hdr.signOid ≠ OID.noSign then
    match km.get_pk_by_pgp_id hdr.pgpKeyId with
    | .single spk =>
        if B.pssVerify hdr.signature spk sign_content then
          none
        else
          some .signatureVerificationFailed
    | .absent => none
    | .tupleOf [] => some .unboundLocalError
    | .tupleOf (_ :: _) => none
    | .listOf _ => some .assertionError
  else
    let content_der := encodeMPContentContainer mp.contentBlock
    if verify_hmac B mp.hmacBlock hdr.hmacKey content_der then
      match disassemble_content_block B mp.contentBlock hdr.aesKey with
      | none => some .otherError
      | some (ts, m) => some (.ok3 ts m 2)
    else
      some .hmacVerificationFailed

/-- One iteration of the trial-decryption loop of
`disassemble_message_packet` for a single candidate private key: `none` means
the candidate was rejected (or fell through) and the loop continues. -/
def attempt_key (B : Backend) (km : KeyManager) (mp : MessagePacket) (ct : List Nat)
    (user_sk : RSAPrivateKey) : Option DisassembleResult :=
  let key_size := user_sk.key_size / 8
  match B.rsaDecrypt (ct.take key_size) user_sk with
  | none => none
  | some blk =>
    if blk.length < 2 then some .otherError
    else
      let offset := calculate_der_id_string_offset blk
      if (blk.drop offset).take 4 ≠ IS then none
      else
        match decrypt_header_rest B user_sk ct key_size with
        | none => some .otherError
        | some restPt =>
          match decodeMPHeader (blk ++ restPt) with
          | none => some .otherError
          | some hdr => process_header B km mp hdr

/-- The trial-decryption loop over the provider's private keys. -/
def try_user_keys (B : Backend) (km : KeyManager) (mp : MessagePacket) (ct : List Nat) :
    List RSAPrivateKey → DisassembleResult
  | [] => .noMatchingRSAKey
  | user_sk :: rest =>
    match attempt_key B km mp ct user_sk with
    | some r => r
    | none => try_user_keys B km mp ct rest

/-- Embedding of `Crypto.disassemble_message_packet`. -/
def disassemble_message_packet (B : Backend) (msg_packet : List Nat) (km : KeyManager) :
    DisassembleResult :=
  match decodeMessagePacket msg_packet with
  | none => .otherError
  | some mp => try_user_keys B km mp mp.headerBlock.encryptedHeader km.yield_keys

theorem chunks_nil (n : Nat) : chunks n [] = [] := by
  rw [chunks]
  simp

theorem chunks_cons (n : Nat) (xs : List Nat) (hn : 0 < n) (hxs : xs ≠ []) :
    chunks n xs = xs.take n :: chunks n (xs.drop n) := by
  rw [chunks]
  rw [dif_neg (by push_neg; exact ⟨by omega, hxs⟩)]

theorem chunks_flatten_aux (n : Nat) (hn : 0 < n) :
    ∀ (m : Nat) (xs : List Nat), xs.length ≤ m → (chunks n xs).flatten = xs := by
  intro m
  induction m with
  | zero =>
    intro xs h
    have hx : xs = [] := List.eq_nil_of_length_eq_zero (by omega)
    subst hx
    simp [chunks_nil]
  | succ m ih =>
    intro xs h
    cases hx : xs with
    | nil => simp [chunks_nil]
    | cons a l =>
      rw [hx] at h
      simp only [List.length_cons] at h
      rw [chunks_cons n _ hn (by simp)]
      simp only [List.flatten_cons]
      rw [ih _ (by simp; omega)]
      exact List.take_append_drop n _

theorem chunks_flatten (n : Nat) (xs : List Nat) (hn : 0 < n) :
    (chunks n xs).flatten = xs :=
  chunks_flatten_aux n hn xs.length xs (le_refl _)

theorem chunks_mem_length_le_aux (n : Nat) :
    ∀ (m : Nat) (xs c : List Nat), xs.length ≤ m → c ∈ chunks n xs → c.length ≤ n := by
  intro m
  induction m with
  | zero =>
    intro xs c h hc
    have hx : xs = [] := List.eq_nil_of_length_eq_zero (by omega)
    subst hx
    rw [chunks_nil] at hc
    simp at hc
  | succ m ih =>
    intro xs c h hc
    by_cases hcond : n = 0 ∨ xs = []
    · rw [chunks, dif_pos hcond] at hc
      simp at hc
    · push_neg at hcond
      rw [chunks_cons n xs (by omega) hcond.2] at hc
      rcases List.mem_cons.mp hc with h' | h'
      · subst h'
        simp
      · have hxs : 0 < xs.length := List.length_pos.mpr hcond.2
        exact ih (xs.drop n) c (by simp; omega) h'

theorem chunks_mem_length_le (n : Nat) (xs : List Nat) (c : List Nat)
    (hc : c ∈ chunks n xs) : c.length ≤ n :=
  chunks_mem_length_le_aux n xs.length xs c (le_refl _) hc

theorem chunks_length_eq_aux (n : Nat) (hn : 0 < n) :
    ∀ (m : Nat) (xs : List Nat), xs.length ≤ m →
      (chunks n xs).length = (xs.length + n - 1) / n := by
  intro m
  induction m with
  | zero =>
    intro xs h
    have hx : xs = [] := List.eq_nil_of_length_eq_zero (by omega)
    subst hx
    rw [chunks_nil]
    simp only [List.length_nil, List.length, Nat.zero_add]
    rw [Nat.div_eq_of_lt (by omega)]
  | succ m ih =>
    intro xs h
    cases hx : xs with
    | nil =>
      rw [chunks_nil]
      simp only [List.length_nil, List.length, Nat.zero_add]
      rw [Nat.div_eq_of_lt (by omega)]
    | cons a l =>
      rw [hx] at h
      simp only [List.length_cons] at h
      rw [chunks_cons n _ hn (by simp)]
      simp only [List.length_cons]
      rw [ih _ (by simp; omega)]
      simp only [List.length_drop, List.length_cons]
      rw [show l.length + 1 + n - 1 = l.length + n by omega, Nat.add_div_right _ hn]
      rcases le_or_lt n (l.length + 1) with h' | h'
      · rw [show l.length + 1 - n + n - 1 = l.length by omega]
      · rw [show l.length + 1 - n = 0 by omega]
        rw [Nat.div_eq_of_lt (by omega), Nat.div_eq_of_lt (by omega)]

theorem chunks_length_eq (n : Nat) (xs : List Nat) (hn : 0 < n) :
    (chunks n xs).length = (xs.length + n - 1) / n :=
  chunks_length_eq_aux n hn xs.length xs (le_refl _)

theorem foldl_append_eq_flatten_map (f : List Nat → List Nat) (bs : List (List Nat))
    (acc : List Nat) :
    bs.foldl (fun a b => a ++ f b) acc = acc ++ (bs.map f).flatten := by
  induction bs generalizing acc with
  | nil => simp
  | cons b bs ih =>
    simp only [List.foldl_cons, List.map_cons, List.flatten_cons]
    rw [ih]
    simp

theorem flatten_map_length_const (f : List Nat → List Nat) (bs : List (List Nat)) (k : Nat)
    (h : ∀ b ∈ bs, (f b).length = k) :
    ((bs.map f).flatten).length = bs.length * k := by
  induction bs with
  | nil => simp
  | cons b bs ih =>
    simp only [List.map_cons, List.flatten_cons, List.length_append, List.length_cons]
    rw [h b (by simp), ih (fun c hc => h c (by simp [hc]))]
    ring

theorem chunks_flatten_map (n : Nat) (bs : List (List Nat)) (hn : 0 < n)
    (h : ∀ b ∈ bs, b.length = n) :
    chunks n bs.flatten = bs := by
  induction bs with
  | nil => simp [chunks_nil]
  | cons b bs ih =>
    have hb : b.length = n := h b (by simp)
    have hbne : b ≠ [] := by
      intro hcontra
      rw [hcontra] at hb
      simp at hb
      omega
    have hne : (b :: bs).flatten ≠ [] := by
      simp only [List.flatten_cons]
      intro hcontra
      rcases List.append_eq_nil.mp hcontra with ⟨h1, _⟩
      exact hbne h1
    rw [chunks_cons n _ hn hne]
    simp only [List.flatten_cons]
    rw [List.take_left' hb, List.drop_left' hb]
    rw [ih (fun c hc => h c (by simp [hc]))]

theorem land_bounded : ∀ m, m < 128 →
    (128 + m) &&& 128 = 128 ∧ (128 + m) &&& 127 = m ∧ m &&& 128 = 0 ∧ m &&& 127 = m := by
  decide

theorem calc_offset_encodeMPHeader (h : MPHeader)
    (hlt : (headerBody h).length < 256 ^ 126) :
    calculate_der_id_string_offset (encodeMPHeader h) =
      if (headerBody h).length < 128 then 4
      else 4 + (natToBytes (headerBody h).length).length := by
  by_cases hn : (headerBody h).length < 128
  · rw [if_pos hn]
    simp only [encodeMPHeader, tlv, derLen, if_pos hn, calculate_der_id_string_offset,
      List.cons_append, List.singleton_append, List.getD_cons_succ, List.getD_cons_zero]
    rw [(land_bounded _ hn).2.2.1]
    simp
  · rw [if_neg hn]
    have hm : (natToBytes (headerBody h).length).length < 128 := by
      have := natToBytes_length_le 126 (headerBody h).length (by norm_num) hlt
      omega
    simp only [encodeMPHeader, tlv, derLen, if_neg hn, calculate_der_id_string_offset,
      List.cons_append, List.getD_cons_succ, List.getD_cons_zero]
    rw [(land_bounded _ hm).1, (land_bounded _ hm).2.1]
    simp
    omega

theorem flod_core (pre rest : List Nat) :
    ((0x30 :: (pre ++ (4 :: 4 :: (IS ++ rest)))).drop (3 + pre.length)).take 4 = IS := by
  have h1 : (3 : Nat) + pre.length = (2 + pre.length) + 1 := by omega
  rw [h1, List.drop_succ_cons]
  have h2 : (2 : Nat) + pre.length = pre.length + 2 := by omega
  rw [h2, ← List.drop_drop, List.drop_left]
  simp only [List.drop_succ_cons, List.drop_zero, List.drop]
  exact List.take_left' (by rfl)

theorem headerBody_shape (h : MPHeader) (hid : h.idString = IS) :
    headerBody h = 4 :: 4 :: (IS ++ (encodeAlgId h.signOid ++ (tlv 0x04 h.pgpKeyId ++
      (tlv 0x04 h.signature ++ (tlv 0x04 h.hmacKey ++ tlv 0x04 h.aesKey))))) := by
  rw [headerBody, hid]
  rfl

theorem flod_at_offset (h : MPHeader) (hid : h.idString = IS)
    (hlt : (headerBody h).length < 256 ^ 126) :
    ((encodeMPHeader h).drop
      (calculate_der_id_string_offset (encodeMPHeader h))).take 4 = IS := by
  rw [calc_offset_encodeMPHeader h hlt]
  by_cases hn : (headerBody h).length < 128
  · rw [if_pos hn]
    have he : encodeMPHeader h = 0x30 :: ([(headerBody h).length] ++ (4 :: 4 :: (IS ++
        (encodeAlgId h.signOid ++ (tlv 0x04 h.pgpKeyId ++ (tlv 0x04 h.signature ++
          (tlv 0x04 h.hmacKey ++ tlv 0x04 h.aesKey))))))) := by
      rw [encodeMPHeader, tlv, derLen, if_pos hn]
      rw [headerBody_shape h hid]
    rw [he]
    have h4 : (4 : Nat) = 3 + [(headerBody h).length].length := by simp
    rw [h4]
    exact flod_core _ _
  · rw [if_neg hn]
    have he : encodeMPHeader h = 0x30 :: (((128 + (natToBytes (headerBody h).length).length) ::
        natToBytes (headerBody h).length) ++ (4 :: 4 :: (IS ++
        (encodeAlgId h.signOid ++ (tlv 0x04 h.pgpKeyId ++ (tlv 0x04 h.signature ++
          (tlv 0x04 h.hmacKey ++ tlv 0x04 h.aesKey))))))) := by
      rw [encodeMPHeader, tlv, derLen, if_neg hn]
      rw [headerBody_shape h hid]
    rw [he]
    have h4 : 4 + (natToBytes (headerBody h).length).length =
        3 + ((128 + (natToBytes (headerBody h).length).length) ::
          natToBytes (headerBody h).length).length := by
      simp
      omega
    rw [h4]
    exact flod_core _ _

theorem oidBytes_length (o : OID) : (oidBytes o).length = 1 := by
  cases o <;> rfl

theorem encodeAlgId_length (o : OID) : (encodeAlgId o).length = 7 := by
  cases o <;> rfl

theorem headerBody_length (h : MPHeader) (h1 : h.idString.length = 4)
    (h2 : h.pgpKeyId.length = 8) (h3 : h.hmacKey.length = 20) (h4 : h.aesKey.length = 16) :
    (headerBody h).length =
      64 + (derLen h.signature.length).length + h.signature.length := by
  simp only [headerBody, List.length_append, tlv_length, h1, h2, h3, h4, encodeAlgId_length]
  rw [show (derLen 4).length = 1 from rfl, show (derLen 8).length = 1 from rfl,
    show (derLen 20).length = 1 from rfl, show (derLen 16).length = 1 from rfl]
  omega

theorem pow_100_le_126 : (165 : Nat) + 256 ^ 100 ≤ 256 ^ 101 ∧ (256 : Nat) ^ 101 ≤ 256 ^ 126 := by
  constructor
  · have e1 : (165 : Nat) < 256 ^ 100 :=
      lt_of_lt_of_le (by norm_num) (Nat.pow_le_pow_right (by norm_num) (by norm_num :
        (1 : Nat) ≤ 100))
    have h256 : (256 : Nat) ^ 101 = 256 ^ 100 * 256 := pow_succ 256 100
    have e2 : (256 : Nat) ^ 100 * 2 ≤ 256 ^ 100 * 256 :=
      Nat.mul_le_mul_left _ (by norm_num)
    linarith
  · exact Nat.pow_le_pow_right (by norm_num) (by norm_num)

theorem offset_le_max (h : MPHeader) (k : Nat)
    (h1 : h.idString.length = 4) (h2 : h.pgpKeyId.length = 8)
    (h3 : h.hmacKey.length = 20) (h4 : h.aesKey.length = 16)
    (hs : h.signature.length < 256 ^ 100) (hk : 151 ≤ k) :
    calculate_der_id_string_offset (encodeMPHeader h) + 4 ≤ k - 42 ∧
      (headerBody h).length < 256 ^ 126 := by
  have hdl : (derLen h.signature.length).length ≤ 101 := by
    by_cases hsmall : h.signature.length < 128
    · simp [derLen, hsmall]
    · simp only [derLen, hsmall, if_false, List.length_cons]
      have := natToBytes_length_le 100 h.signature.length (by norm_num) hs
      omega
  have hn := headerBody_length h h1 h2 h3 h4
  obtain ⟨hp1, hp2⟩ := pow_100_le_126
  have hlt : (headerBody h).length < 256 ^ 126 := by linarith
  refine ⟨?_, hlt⟩
  rw [calc_offset_encodeMPHeader h hlt]
  by_cases hc : (headerBody h).length < 128
  · rw [if_pos hc]
    omega
  · rw [if_neg hc]
    have hnb : (natToBytes (headerBody h).length).length ≤ 101 := by
      apply natToBytes_length_le 101 _ (by norm_num)
      linarith
    omega

theorem foldl_decrypt (B : Backend) (sk : RSAPrivateKey) (f : List Nat → List Nat) :
    ∀ (ps : List (List Nat)) (a : List Nat),
      (∀ c ∈ ps, B.rsaDecrypt (f c) sk = some c) →
      ((ps.map f).foldl
        (fun acc blk =>
          match acc, B.rsaDecrypt blk sk with
          | some x, some p => some (x ++ p)
          | _, _ => none)
        (some a)) = some (a ++ ps.flatten) := by
  intro ps
  induction ps with
  | nil =>
    intro a _
    simp
  | cons c cs ih =>
    intro a h
    simp only [List.map_cons, List.foldl_cons, List.flatten_cons]
    rw [h c (by simp)]
    rw [ih (a ++ c) (fun d hd => h d (by simp [hd]))]
    simp


theorem assemble_mp_header_none (B : Backend) (e : Entropy) (pk : RSAPublicKey) :
    assemble_mp_header B e pk none =
      { idString := IS, signOid := OID.noSign, pgpKeyId := e.rand 4 8,
        signature := e.rand 3 (get_rsa_max_bytestring_size pk.key_size),
        hmacKey := e.rand 2 20, aesKey := e.rand 1 16 } := rfl

theorem assemble_mp_header_some (B : Backend) (e : Entropy) (pk : RSAPublicKey)
    (sks : RSAPrivateKey) (pid : List Nat) :
    assemble_mp_header B e pk (some (sks, pid)) =
      { idString := IS, signOid := OID.rsassaPss, pgpKeyId := pid,
        signature := B.pssSign (e.rand 1 16 ++ e.rand 2 20) sks,
        hmacKey := e.rand 2 20, aesKey := e.rand 1 16 } := rfl

theorem assemble_mp_header_idString (B : Backend) (e : Entropy) (pk : RSAPublicKey)
    (sign : Option (RSAPrivateKey × List Nat)) :
    (assemble_mp_header B e pk sign).idString = IS := by
  cases sign with
  | none => rw [assemble_mp_header_none]
  | some s =>
    rcases s with ⟨a, b⟩
    rw [assemble_mp_header_some]

theorem assemble_mp_header_hmacKey (B : Backend) (e : Entropy) (pk : RSAPublicKey)
    (sign : Option (RSAPrivateKey × List Nat)) :
    (assemble_mp_header B e pk sign).hmacKey = e.rand 2 20 := by
  cases sign with
  | none => rw [assemble_mp_header_none]
  | some s =>
    rcases s with ⟨a, b⟩
    rw [assemble_mp_header_some]

theorem assemble_mp_header_aesKey (B : Backend) (e : Entropy) (pk : RSAPublicKey)
    (sign : Option (RSAPrivateKey × List Nat)) :
    (assemble_mp_header B e pk sign).aesKey = e.rand 1 16 := by
  cases sign with
  | none => rw [assemble_mp_header_none]
  | some s =>
    rcases s with ⟨a, b⟩
    rw [assemble_mp_header_some]

theorem attempt_key_eval (B : Backend) (km : KeyManager) (mp : MessagePacket) (ct : List Nat)
    (sk : RSAPrivateKey) (blk restPt : List Nat) (hdr : MPHeader)
    (hdec : B.rsaDecrypt (ct.take (sk.key_size / 8)) sk = some blk)
    (hlen : 2 ≤ blk.length)
    (hsent : (blk.drop (calculate_der_id_string_offset blk)).take 4 = IS)
    (hrest : decrypt_header_rest B sk ct (sk.key_size / 8) = some restPt)
    (hhdr : decodeMPHeader (blk ++ restPt) = some hdr) :
    attempt_key B km mp ct sk = process_header B km mp hdr := by
  simp only [attempt_key, hdec]
  rw [if_neg (by omega)]
  rw [if_neg (by simp [hsent])]
  simp only [hrest, hhdr]

theorem process_header_unsigned_eval (B : Backend) (km : KeyManager) (mp : MessagePacket)
    (hdr : MPHeader) (hoid : hdr.signOid = OID.noSign) :
    process_header B km mp hdr =
      if mp.hmacBlock.digest =
          generate_hmac B (encodeMPContentContainer mp.contentBlock) hdr.hmacKey then
        match disassemble_content_block B mp.contentBlock hdr.aesKey with
        | none => some DisassembleResult.otherError
        | some (ts, m) => some (DisassembleResult.ok3 ts m 2)
      else some DisassembleResult.hmacVerificationFailed := by
  simp only [process_header, hoid, verify_hmac, decide_eq_true_eq]
  rw [if_neg (show ¬(OID.noSign ≠ OID.noSign) by simp)]

theorem process_header_signed_eval (B : Backend) (km : KeyManager) (mp : MessagePacket)
    (hdr : MPHeader) (hoid : hdr.signOid = OID.rsassaPss) :
    process_header B km mp hdr =
      match km.get_pk_by_pgp_id hdr.pgpKeyId with
      | .single spk =>
          if B.pssVerify hdr.signature spk (hdr.hmacKey ++ hdr.aesKey) then none
          else some DisassembleResult.signatureVerificationFailed
      | .absent => none
      | .tupleOf [] => some DisassembleResult.unboundLocalError
      | .tupleOf (_ :: _) => none
      | .listOf _ => some DisassembleResult.assertionError := by
  simp only [process_header, hoid]
  rw [if_pos (show OID.rsassaPss ≠ OID.noSign by decide)]

/-- Core behaviour of `disassemble_message_packet` on an assembled packet whose
HMAC block has been replaced by an arbitrary `hb`, for a provider holding
exactly the recipient private key: the packet decodes, trial decryption
succeeds on the single key, the header decodes back, and the overall result is
the outcome of the state machine — with the fall-through cases of the source
(a per-key loop body that ends without `return`) turning into
`NoMatchingRSAKeyForMessage` because no further key remains. -/
theorem disassemble_assemble_core (B : Backend) (e : Entropy) (now msg : List Nat)
    (pk : RSAPublicKey) (sk : RSAPrivateKey) (sign : Option (RSAPrivateKey × List Nat))
    (km : KeyManager) (hb : MPHMACContainer)
    (hpair : B.RsaPairOk sk pk) (he : e.Ok) (hkm : km.yield_keys = [sk])
    (hsig : (assemble_mp_header B e pk sign).signature.length < 256 ^ 100)
    (hpid : (assemble_mp_header B e pk sign).pgpKeyId.length = 8)
    (hk1 : 151 ≤ pk.key_size / 8) :
    disassemble_message_packet B
      (encodeMessagePacket
        { assemble_message_packet_struct B e now msg pk sign with hmacBlock := hb }) km
    = match process_header B km
        { assemble_message_packet_struct B e now msg pk sign with hmacBlock := hb }
        (assemble_mp_header B e pk sign) with
      | some r => r
      | none => DisassembleResult.noMatchingRSAKey := by
  obtain ⟨hks, hEl, hDe⟩ := hpair
  set k := pk.key_size / 8 with hkdef
  have hidf := assemble_mp_header_idString B e pk sign
  have hhmf := assemble_mp_header_hmacKey B e pk sign
  have haef := assemble_mp_header_aesKey B e pk sign
  obtain ⟨hoffb, hbody126⟩ := offset_le_max (assemble_mp_header B e pk sign) k
    (by rw [hidf]; rfl) hpid (by rw [hhmf]; exact he 2 20) (by rw [haef]; exact he 1 16)
    hsig hk1
  have hflod := flod_at_offset (assemble_mp_header B e pk sign) hidf hbody126
  set hdrv := assemble_mp_header B e pk sign with hhdrv
  set hdrDer := encodeMPHeader hdrv with hhdrDer
  set mx := get_rsa_max_bytestring_size pk.key_size with hmx
  have hmxval : mx = k - 42 := by rw [hmx, get_rsa_max_bytestring_size, hkdef]
  have hmxpos : 0 < mx := by omega
  set chs := chunks mx hdrDer with hchs
  have hchsmem : ∀ c ∈ chs, c.length ≤ k - 42 := by
    intro c hc
    have := chunks_mem_length_le mx hdrDer c hc
    omega
  have hchsflat : chs.flatten = hdrDer := chunks_flatten mx hdrDer hmxpos
  have hdrne : hdrDer ≠ [] := by rw [hhdrDer, encodeMPHeader, tlv]; simp
  have hd1 : 1 ≤ (derLen (headerBody hdrv).length).length := by
    rw [derLen]
    split
    · simp
    · simp
  have hdrDer_len : hdrDer.length = 1 + (derLen (headerBody hdrv).length).length +
      (headerBody hdrv).length := by
    rw [hhdrDer, encodeMPHeader, tlv_length]
  set ct := (chs.foldl (fun acc blk => acc ++ B.rsaEncrypt blk pk) []) with hct
  have hctflat : ct = (chs.map (fun c => B.rsaEncrypt c pk)).flatten := by
    rw [hct, foldl_append_eq_flatten_map]
    simp
  have hctlen : ∀ c ∈ chs, (B.rsaEncrypt c pk).length = k := by
    intro c hc
    exact hEl c (hchsmem c hc)
  obtain ⟨c1, ctail, hcons⟩ : ∃ c1 ctail, chs = c1 :: ctail := by
    cases hx : chs with
    | nil =>
      exfalso
      rw [hx] at hchsflat
      exact hdrne (by simpa using hchsflat.symm)
    | cons a l => exact ⟨a, l, rfl⟩
  have hc1mem : c1 ∈ chs := by rw [hcons]; simp
  have hc1take : c1 = hdrDer.take mx := by
    have hq := hchs
    rw [chunks_cons mx hdrDer hmxpos hdrne, hcons] at hq
    exact (List.cons.injEq c1 ctail (hdrDer.take mx) (chunks mx (hdrDer.drop mx)) ▸ hq).1
  have hcttake : ct.take k = B.rsaEncrypt c1 pk := by
    rw [hctflat, hcons]
    simp only [List.map_cons, List.flatten_cons]
    exact List.take_left' (hctlen c1 hc1mem)
  have hctdrop : ct.drop k = (ctail.map (fun c => B.rsaEncrypt c pk)).flatten := by
    rw [hctflat, hcons]
    simp only [List.map_cons, List.flatten_cons]
    exact List.drop_left' (hctlen c1 hc1mem)
  have hdec1 : B.rsaDecrypt (ct.take k) sk = some c1 := by
    rw [hcttake]
    exact hDe c1 (hchsmem c1 hc1mem)
  have hoffc1 : calculate_der_id_string_offset c1 =
      calculate_der_id_string_offset hdrDer := by
    rw [hc1take]
    unfold calculate_der_id_string_offset
    have hgd : (hdrDer.take mx).getD 1 0 = hdrDer.getD 1 0 := by
      simp [List.getD, List.getElem?_take, show (1 : Nat) < mx by omega]
    rw [hgd]
  have hc1len : 2 ≤ c1.length := by
    rw [hc1take]
    simp only [List.length_take]
    omega
  have hsent : (c1.drop (calculate_der_id_string_offset c1)).take 4 = IS := by
    rw [hoffc1, hc1take, List.drop_take, List.take_take, min_eq_left (by omega)]
    exact hflod
  have hrest : decrypt_header_rest B sk ct k = some ctail.flatten := by
    rw [decrypt_header_rest, hctdrop]
    rw [chunks_flatten_map k (ctail.map (fun c => B.rsaEncrypt c pk)) (by omega) (by
      intro b hbm
      rcases List.mem_map.mp hbm with ⟨c, hcm, hceq⟩
      rw [← hceq]
      exact hctlen c (by rw [hcons]; simp [hcm]))]
    rw [foldl_decrypt B sk (fun c => B.rsaEncrypt c pk) ctail [] (by
      intro c hcm
      exact hDe c (hchsmem c (by rw [hcons]; simp [hcm])))]
    simp
  have hfull : c1 ++ ctail.flatten = hdrDer := by
    have hq : chs.flatten = c1 ++ ctail.flatten := by rw [hcons]; simp
    rw [← hq, hchsflat]
  have hhdrdec : decodeMPHeader (c1 ++ ctail.flatten) = some hdrv := by
    rw [hfull, hhdrDer]
    exact decodeMPHeader_encodeMPHeader hdrv
  have hskk : sk.key_size / 8 = k := by rw [hks, hkdef]
  set st := ({ assemble_message_packet_struct B e now msg pk sign with
      hmacBlock := hb } : MessagePacket) with hst
  simp only [disassemble_message_packet, decodeMessagePacket_enc, hkm]
  have henc : st.headerBlock.encryptedHeader = ct := rfl
  rw [henc]
  rw [try_user_keys]
  rw [attempt_key_eval B km st ct sk c1 ctail.flatten hdrv
    (by rw [hskk]; exact hdec1) hc1len hsent (by rw [hskk]; exact hrest) hhdrdec]
  cases hph : process_header B km st hdrv with
  | none => rfl
  | some r => rfl

/-- Disassembling, with provider key list `[sk]`, an unsigned assembled packet
whose HMAC block was replaced by `hb`: the payload is released with exit code 2
iff the digest matches; otherwise `HMACVerificationFailed` is raised. -/
theorem disassemble_assemble_unsigned_hb (B : Backend) (e : Entropy) (now msg : List Nat)
    (pk : RSAPublicKey) (sk : RSAPrivateKey) (km : KeyManager) (hb : MPHMACContainer)
    (hpair : B.RsaPairOk sk pk) (he : e.Ok) (haes : B.AesOk) (hkm : km.yield_keys = [sk])
    (hk1 : 151 ≤ pk.key_size / 8) (hk2 : pk.key_size / 8 < 256 ^ 100) :
    disassemble_message_packet B
      (encodeMessagePacket
        { assemble_message_packet_struct B e now msg pk none with hmacBlock := hb }) km
    = if hb.digest = generate_hmac B
          (encodeMPContentContainer
            (assemble_content_block B now msg (e.rand 1 16) (e.rand 0 16))) (e.rand 2 20)
      then DisassembleResult.ok3 now msg 2
      else DisassembleResult.hmacVerificationFailed := by
  have hsig : (assemble_mp_header B e pk none).signature.length < 256 ^ 100 := by
    rw [assemble_mp_header_none]
    simp only
    rw [he 3 (get_rsa_max_bytestring_size pk.key_size), get_rsa_max_bytestring_size]
    omega
  have hpid : (assemble_mp_header B e pk none).pgpKeyId.length = 8 := by
    rw [assemble_mp_header_none]
    exact he 4 8
  rw [disassemble_assemble_core B e now msg pk sk none km hb hpair he hkm hsig hpid hk1]
  rw [process_header_unsigned_eval B km _ _ (by rw [assemble_mp_header_none])]
  have hhm : ({ assemble_message_packet_struct B e now msg pk none with
      hmacBlock := hb } : MessagePacket).hmacBlock = hb := rfl
  have hcb : ({ assemble_message_packet_struct B e now msg pk none with
      hmacBlock := hb } : MessagePacket).contentBlock =
      assemble_content_block B now msg (e.rand 1 16) (e.rand 0 16) := rfl
  rw [hhm, hcb]
  rw [show (assemble_mp_header B e pk none).hmacKey = e.rand 2 20 by
    rw [assemble_mp_header_none]]
  rw [show (assemble_mp_header B e pk none).aesKey = e.rand 1 16 by
    rw [assemble_mp_header_none]]
  by_cases hd : hb.digest = generate_hmac B
      (encodeMPContentContainer
        (assemble_content_block B now msg (e.rand 1 16) (e.rand 0 16))) (e.rand 2 20)
  · rw [if_pos hd, if_pos hd]
    have haes2 := haes (encodeMPContent { timestamp := now, content := msg })
      (e.rand 1 16) (e.rand 0 16)
    have hdcb : disassemble_content_block B
        (assemble_content_block B now msg (e.rand 1 16) (e.rand 0 16)) (e.rand 1 16)
        = some (now, msg) := by
      simp only [disassemble_content_block, assemble_content_block]
      rw [haes2]
      simp only [decodeMPContent_encodeMPContent]
    rw [hdcb]
  · rw [if_neg hd, if_neg hd]

/-- Disassembling, with provider key list `[sk]`, a signed assembled packet
whose HMAC block was replaced by `hb`: the outcome depends only on the lookup
of the PGP key id — never on `hb`, and no payload is ever released, because the
signed branch of the source has no `return` statement and never verifies the
HMAC. -/
theorem disassemble_assemble_signed_hb (B : Backend) (e : Entropy) (now msg : List Nat)
    (pk : RSAPublicKey) (sk sks : RSAPrivateKey) (pid : List Nat) (km : KeyManager)
    (hb : MPHMACContainer)
    (hpair : B.RsaPairOk sk pk) (he : e.Ok) (hkm : km.yield_keys = [sk])
    (hsiglen : (B.pssSign (e.rand 1 16 ++ e.rand 2 20) sks).length < 256 ^ 100)
    (hpidlen : pid.length = 8)
    (hk1 : 151 ≤ pk.key_size / 8) :
    disassemble_message_packet B
      (encodeMessagePacket
        { assemble_message_packet_struct B e now msg pk (some (sks, pid)) with
            hmacBlock := hb }) km
    = match km.get_pk_by_pgp_id pid with
      | .single spk =>
          if B.pssVerify (B.pssSign (e.rand 1 16 ++ e.rand 2 20) sks) spk
              (e.rand 2 20 ++ e.rand 1 16)
          then DisassembleResult.noMatchingRSAKey
          else DisassembleResult.signatureVerificationFailed
      | .absent => DisassembleResult.noMatchingRSAKey
      | .tupleOf [] => DisassembleResult.unboundLocalError
      | .tupleOf (_ :: _) => DisassembleResult.noMatchingRSAKey
      | .listOf _ => DisassembleResult.assertionError := by
  have hsig : (assemble_mp_header B e pk (some (sks, pid))).signature.length < 256 ^ 100 := by
    rw [assemble_mp_header_some]
    exact hsiglen
  have hpid8 : (assemble_mp_header B e pk (some (sks, pid))).pgpKeyId.length = 8 := by
    rw [assemble_mp_header_some]
    exact hpidlen
  rw [disassemble_assemble_core B e now msg pk sk (some (sks, pid)) km hb hpair he hkm
    hsig hpid8 hk1]
  rw [process_header_signed_eval B km _ _ (by rw [assemble_mp_header_some])]
  rw [show (assemble_mp_header B e pk (some (sks, pid))).pgpKeyId = pid by
    rw [assemble_mp_header_some]]
  rw [show (assemble_mp_header B e pk (some (sks, pid))).signature =
      B.pssSign (e.rand 1 16 ++ e.rand 2 20) sks by rw [assemble_mp_header_some]]
  rw [show (assemble_mp_header B e pk (some (sks, pid))).hmacKey = e.rand 2 20 by
    rw [assemble_mp_header_some]]
  rw [show (assemble_mp_header B e pk (some (sks, pid))).aesKey = e.rand 1 16 by
    rw [assemble_mp_header_some]]
  cases hlk : km.get_pk_by_pgp_id pid with
  | single spk =>
    by_cases hv : B.pssVerify (B.pssSign (e.rand 1 16 ++ e.rand 2 20) sks) spk
        (e.rand 2 20 ++ e.rand 1 16) = true
    · simp [hv]
    · simp [hv]
  | absent => rfl
  | tupleOf pks =>
    cases pks with
    | nil => rfl
    | cons p ps => rfl
  | listOf pks => rfl

/-- The rejection condition of the trial-decryption loop, as described by the
specification: a candidate key is rejected when RSA-OAEP decryption of the
first header block fails, or when the four bytes at the computed
identification-string offset differ from `FLOD`. -/
def rejects (B : Backend) (ct : List Nat) (sk : RSAPrivateKey) : Prop :=
  B.rsaDecrypt (ct.take (sk.key_size / 8)) sk = none ∨
  ∃ blk, B.rsaDecrypt (ct.take (sk.key_size / 8)) sk = some blk ∧ 2 ≤ blk.length ∧
    (blk.drop (calculate_der_id_string_offset blk)).take 4 ≠ IS

theorem attempt_key_of_rejects (B : Backend) (km : KeyManager) (mp : MessagePacket)
    (ct : List Nat) (sk : RSAPrivateKey) (h : rejects B ct sk) :
    attempt_key B km mp ct sk = none := by
  rcases h with h | ⟨blk, h1, h2, h3⟩
  · simp only [attempt_key, h]
  · simp only [attempt_key, h1]
    rw [if_neg (by omega)]
    rw [if_pos h3]

theorem try_user_keys_all_rejected (B : Backend) (km : KeyManager) (mp : MessagePacket)
    (ct : List Nat) :
    ∀ l : List RSAPrivateKey, (∀ sk ∈ l, rejects B ct sk) →
      try_user_keys B km mp ct l = DisassembleResult.noMatchingRSAKey := by
  intro l
  induction l with
  | nil =>
    intro _
    rfl
  | cons a l ih =>
    intro h
    rw [try_user_keys, attempt_key_of_rejects B km mp ct a (h a (by simp))]
    exact ih (fun sk hs => h sk (by simp [hs]))

end Crypto

/-! Concrete instances used by the witnesses: a toy backend whose primitives
satisfy the correctness contracts, a deterministic entropy source, and small
key managers. -/

def toyE : Entropy := ⟨fun i n => List.replicate n (i + 1)⟩

theorem toyE_ok : toyE.Ok := by
  intro i n
  simp [toyE]

def toyB : Backend :=
  { rsaEncrypt := fun pt pk =>
      pk.id :: pt.length :: (pt ++ List.replicate (pk.key_size / 8 - 2 - pt.length) 0)
    rsaDecrypt := fun ct sk =>
      match ct with
      | i :: n :: rest =>
        if i = sk.id ∧ rest.length + 2 = sk.key_size / 8 then some (rest.take n) else none
      | _ => none
    aesEncrypt := fun pt _ _ => pt
    aesDecrypt := fun ct _ _ => some ct
    hmacSha1 := fun c k => k ++ c
    pssSign := fun c sk => sk.id :: c
    pssVerify := fun sig pk c => decide (sig = pk.id :: c) }

theorem toyB_aes : toyB.AesOk := by
  intro pt key iv
  rfl

theorem toyB_pair (idn ks : Nat) (h2 : 2 ≤ ks / 8) :
    toyB.RsaPairOk ⟨idn, ks⟩ ⟨idn, ks⟩ := by
  refine ⟨rfl, ?_, ?_⟩
  · intro pt hpt
    simp only [toyB] at hpt ⊢
    simp only [List.length_cons, List.length_append, List.length_replicate]
    omega
  · intro pt hpt
    simp only [toyB] at hpt ⊢
    have hc : pt.length + 2 ≤ ks / 8 := by omega
    rw [if_pos (by
      constructor
      · trivial
      · simp only [List.length_append, List.length_replicate]
        omega)]
    rw [List.take_left' rfl]

def toySk : RSAPrivateKey := ⟨7, 1280⟩

def toyPk : RSAPublicKey := ⟨7, 1280⟩

def toySks : RSAPrivateKey := ⟨9, 1280⟩

def toySpk : RSAPublicKey := ⟨9, 1280⟩

def toyPid : List Nat := [5, 5, 5, 5, 5, 5, 5, 5]

def toyPk2048 : RSAPublicKey := ⟨7, 2048⟩

def toyKm1 : KeyManager := ⟨[toySk], fun _ => LookupResult.absent⟩

def toyKm2 : KeyManager :=
  ⟨[toySk], fun b => if b = toyPid then LookupResult.single toySpk else LookupResult.absent⟩

def toyKm9 : KeyManager :=
  ⟨[toySk], fun b => if b = List.replicate 8 0 then LookupResult.tupleOf []
    else LookupResult.absent⟩

def toyKm10 : KeyManager :=
  ⟨[toySk], fun b => if b = List.replicate 8 0 then LookupResult.listOf [toySpk]
    else LookupResult.absent⟩

def toyKmEmpty : KeyManager := ⟨[], fun _ => LookupResult.absent⟩

def toyPacket : MessagePacket :=
  ⟨1, ⟨OID.idRsaesOaep, [9, 9, 9]⟩, ⟨OID.sha1, [1]⟩, ⟨[0], OID.aes128cbc, [2]⟩⟩

def toyHdr : MPHeader := ⟨Crypto.IS, OID.noSign, [1], [2], [3], [4]⟩

/-- C1: Round trip, unsigned: for every payload, recipient key pair with a
sound backend and entropy source, and provider holding exactly the recipient
private key, disassembling an unsigned assembled packet returns the assembly
timestamp, the original payload, and exit code 2 (the key size must be large
enough for the header chunking, and bounded by an astronomically generous
constant so that the DER length fields stay well formed). -/
theorem c1_round_trip_unsigned (B : Backend) (e : Entropy) (now msg : List Nat)
    (pk : RSAPublicKey) (sk : RSAPrivateKey) (km : KeyManager)
    (hpair : B.RsaPairOk sk pk) (he : e.Ok) (haes : B.AesOk)
    (hkm : km.yield_keys = [sk])
    (hk1 : 151 ≤ pk.key_size / 8) (hk2 : pk.key_size / 8 < 256 ^ 100) :
    Crypto.disassemble_message_packet B
      (Crypto.assemble_message_packet B e now msg pk none) km
    = DisassembleResult.ok3 now msg 2 := by
  have hself : Crypto.assemble_message_packet B e now msg pk none =
      encodeMessagePacket
        { Crypto.assemble_message_packet_struct B e now msg pk none with
          hmacBlock := Crypto.assemble_hmac_block B
            (encodeMPContentContainer (Crypto.assemble_content_block B now msg
              (e.rand 1 16) (e.rand 0 16))) (e.rand 2 20) } := rfl
  rw [hself]
  rw [Crypto.disassemble_assemble_unsigned_hb B e now msg pk sk km _ hpair he haes hkm
    hk1 hk2]
  rw [if_pos (by exact rfl)]

theorem c1_witness :
    Crypto.disassemble_message_packet toyB
      (Crypto.assemble_message_packet toyB toyE [50, 48] [104, 105] toyPk none) toyKm1
    = DisassembleResult.ok3 [50, 48] [104, 105] 2 :=
  c1_round_trip_unsigned toyB toyE [50, 48] [104, 105] toyPk toySk toyKm1
    (toyB_pair 7 1280 (by norm_num)) toyE_ok toyB_aes rfl (by decide) (by decide)

/-- C2: Round trip, signed with known sender.  The claim that the result is
(ts, m, 0, id_s) fails on the code: the source signs `AESKey + HMACKey` but
verifies over `HMACKey + AESKey`, and the signed branch contains no `return`
statement, so with an honest PSS backend (one rejecting the swapped message)
the call raises `SignatureVerificationFailed` instead of releasing the
payload. -/
theorem c2_signed_known_sender_fails (B : Backend) (e : Entropy) (now msg : List Nat)
    (pk : RSAPublicKey) (sk sks : RSAPrivateKey) (pid : List Nat) (spk : RSAPublicKey)
    (km : KeyManager)
    (hpair : B.RsaPairOk sk pk) (he : e.Ok) (hkm : km.yield_keys = [sk])
    (hsiglen : (B.pssSign (e.rand 1 16 ++ e.rand 2 20) sks).length < 256 ^ 100)
    (hpidlen : pid.length = 8) (hk1 : 151 ≤ pk.key_size / 8)
    (hlook : km.get_pk_by_pgp_id pid = LookupResult.single spk)
    (hver : B.pssVerify (B.pssSign (e.rand 1 16 ++ e.rand 2 20) sks) spk
      (e.rand 2 20 ++ e.rand 1 16) = false) :
    Crypto.disassemble_message_packet B
      (Crypto.assemble_message_packet B e now msg pk (some (sks, pid))) km
    = DisassembleResult.signatureVerificationFailed := by
  have hself : Crypto.assemble_message_packet B e now msg pk (some (sks, pid)) =
      encodeMessagePacket
        { Crypto.assemble_message_packet_struct B e now msg pk (some (sks, pid)) with
          hmacBlock := Crypto.assemble_hmac_block B
            (encodeMPContentContainer (Crypto.assemble_content_block B now msg
              (e.rand 1 16) (e.rand 0 16))) (e.rand 2 20) } := rfl
  rw [hself]
  rw [Crypto.disassemble_assemble_signed_hb B e now msg pk sk sks pid km _ hpair he hkm
    hsiglen hpidlen hk1]
  rw [hlook]
  simp [hver]

theorem c2_witness :
    Crypto.disassemble_message_packet toyB
      (Crypto.assemble_message_packet toyB toyE [50] [104, 105] toyPk
        (some (toySks, toyPid))) toyKm2
    = DisassembleResult.signatureVerificationFailed :=
  c2_signed_known_sender_fails toyB toyE [50] [104, 105] toyPk toySk toySks toyPid toySpk
    toyKm2 (toyB_pair 7 1280 (by norm_num)) toyE_ok rfl (by decide) (by decide) (by decide)
    (by decide) (by decide)

/-- C3: the claim that HMAC verification happens before payload release on
every successful header decryption fails on the code: in the signed branch the
source never verifies the HMAC container at all and never releases the
payload — replacing the HMAC block of a signed packet by an arbitrary one
(in particular one carrying a mismatching tag) never yields
`HMACVerificationFailed` and never yields a released payload. -/
theorem c3_signed_no_hmac_check (B : Backend) (e : Entropy) (now msg : List Nat)
    (pk : RSAPublicKey) (sk sks : RSAPrivateKey) (pid : List Nat) (km : KeyManager)
    (hb : MPHMACContainer)
    (hpair : B.RsaPairOk sk pk) (he : e.Ok) (hkm : km.yield_keys = [sk])
    (hsiglen : (B.pssSign (e.rand 1 16 ++ e.rand 2 20) sks).length < 256 ^ 100)
    (hpidlen : pid.length = 8) (hk1 : 151 ≤ pk.key_size / 8) :
    Crypto.disassemble_message_packet B
      (encodeMessagePacket
        { Crypto.assemble_message_packet_struct B e now msg pk (some (sks, pid)) with
          hmacBlock := hb }) km ≠ DisassembleResult.hmacVerificationFailed ∧
    (∀ ts m c, Crypto.disassemble_message_packet B
      (encodeMessagePacket
        { Crypto.assemble_message_packet_struct B e now msg pk (some (sks, pid)) with
          hmacBlock := hb }) km ≠ DisassembleResult.ok3 ts m c) ∧
    (∀ ts m c si, Crypto.disassemble_message_packet B
      (encodeMessagePacket
        { Crypto.assemble_message_packet_struct B e now msg pk (some (sks, pid)) with
          hmacBlock := hb }) km ≠ DisassembleResult.ok4 ts m c si) := by
  rw [Crypto.disassemble_assemble_signed_hb B e now msg pk sk sks pid km hb hpair he hkm
    hsiglen hpidlen hk1]
  cases km.get_pk_by_pgp_id pid with
  | single spk =>
    by_cases hv : B.pssVerify (B.pssSign (e.rand 1 16 ++ e.rand 2 20) sks) spk
        (e.rand 2 20 ++ e.rand 1 16) = true
    · simp [hv]
    · simp [hv]
  | absent => simp
  | tupleOf pks => cases pks <;> simp
  | listOf pks => simp

theorem c3_witness :
    Crypto.disassemble_message_packet toyB
      (encodeMessagePacket
        { Crypto.assemble_message_packet_struct toyB toyE [50] [104] toyPk
            (some (toySks, toyPid)) with hmacBlock := ⟨OID.sha1, [0]⟩ }) toyKm2
    ≠ DisassembleResult.hmacVerificationFailed :=
  (c3_signed_no_hmac_check toyB toyE [50] [104] toyPk toySk toySks toyPid toyKm2
    ⟨OID.sha1, [0]⟩ (toyB_pair 7 1280 (by norm_num)) toyE_ok rfl (by decide) (by decide)
    (by decide)).1

/-- C4: Unknown signer.  The claim that the result is (ts, m, 3) with no
exception fails on the code: the branch sets exit code 3 but falls off the end
of the per-key loop body (the `return` statements live only in the unsigned
branch), so the loop exhausts the provider and the call raises
`NoMatchingRSAKeyForMessage`. -/
theorem c4_unknown_signer_no_return (B : Backend) (e : Entropy) (now msg : List Nat)
    (pk : RSAPublicKey) (sk sks : RSAPrivateKey) (pid : List Nat) (km : KeyManager)
    (hpair : B.RsaPairOk sk pk) (he : e.Ok) (hkm : km.yield_keys = [sk])
    (hsiglen : (B.pssSign (e.rand 1 16 ++ e.rand 2 20) sks).length < 256 ^ 100)
    (hpidlen : pid.length = 8) (hk1 : 151 ≤ pk.key_size / 8)
    (hlook : km.get_pk_by_pgp_id pid = LookupResult.absent) :
    Crypto.disassemble_message_packet B
      (Crypto.assemble_message_packet B e now msg pk (some (sks, pid))) km
    = DisassembleResult.noMatchingRSAKey := by
  have hself : Crypto.assemble_message_packet B e now msg pk (some (sks, pid)) =
      encodeMessagePacket
        { Crypto.assemble_message_packet_struct B e now msg pk (some (sks, pid)) with
          hmacBlock := Crypto.assemble_hmac_block B
            (encodeMPContentContainer (Crypto.assemble_content_block B now msg
              (e.rand 1 16) (e.rand 0 16))) (e.rand 2 20) } := rfl
  rw [hself]
  rw [Crypto.disassemble_assemble_signed_hb B e now msg pk sk sks pid km _ hpair he hkm
    hsiglen hpidlen hk1]
  rw [hlook]

theorem c4_witness :
    Crypto.disassemble_message_packet toyB
      (Crypto.assemble_message_packet toyB toyE [50] [104] toyPk
        (some (toySks, toyPid))) toyKm1
    = DisassembleResult.noMatchingRSAKey :=
  c4_unknown_signer_no_return toyB toyE [50] [104] toyPk toySk toySks toyPid toyKm1
    (toyB_pair 7 1280 (by norm_num)) toyE_ok rfl (by decide) (by decide) (by decide) rfl

/-- C5: if the packet decodes and every private key yielded by the provider is
rejected (its RSA-OAEP decryption of the first header block fails, or the four
bytes at the computed identification-string offset are not `FLOD`), the
disassembly raises `NoMatchingRSAKeyForMessage`. -/
theorem c5_all_rejected_no_matching_key (B : Backend) (km : KeyManager)
    (packet : List Nat) (mp : MessagePacket)
    (hdec : decodeMessagePacket packet = some mp)
    (hrej : ∀ sk ∈ km.yield_keys, Crypto.rejects B mp.headerBlock.encryptedHeader sk) :
    Crypto.disassemble_message_packet B packet km = DisassembleResult.noMatchingRSAKey := by
  simp only [Crypto.disassemble_message_packet, hdec]
  exact Crypto.try_user_keys_all_rejected B km mp _ km.yield_keys hrej

theorem c5_witness :
    Crypto.disassemble_message_packet toyB (encodeMessagePacket toyPacket) toyKmEmpty
    = DisassembleResult.noMatchingRSAKey :=
  c5_all_rejected_no_matching_key toyB toyKmEmpty _ toyPacket
    (decodeMessagePacket_enc toyPacket) (by simp [toyKmEmpty])

/-- C6: the claim that the unsigned decoy signature has RSA-block-size
(keyBits/8) bytes fails on the code: the source draws
`urandom(keyBits/8 - 42)` bytes for it, which is never equal to keyBits/8;
the decoy PGP key id does have 8 random bytes. -/
theorem c6_decoy_signature_length (B : Backend) (e : Entropy) (pk : RSAPublicKey)
    (he : e.Ok) (h1 : 1 ≤ pk.key_size / 8) :
    (Crypto.assemble_mp_header B e pk none).signature.length = pk.key_size / 8 - 42 ∧
    (Crypto.assemble_mp_header B e pk none).pgpKeyId.length = 8 ∧
    (Crypto.assemble_mp_header B e pk none).signature.length ≠ pk.key_size / 8 := by
  have hs : (Crypto.assemble_mp_header B e pk none).signature =
      e.rand 3 (Crypto.get_rsa_max_bytestring_size pk.key_size) := by
    rw [Crypto.assemble_mp_header_none]
  have hp : (Crypto.assemble_mp_header B e pk none).pgpKeyId = e.rand 4 8 := by
    rw [Crypto.assemble_mp_header_none]
  rw [hs, hp, he 3 (Crypto.get_rsa_max_bytestring_size pk.key_size), he 4 8,
    Crypto.get_rsa_max_bytestring_size]
  refine ⟨rfl, rfl, by omega⟩

theorem c6_witness :
    (Crypto.assemble_mp_header toyB toyE toyPk2048 none).signature.length
      = toyPk2048.key_size / 8 - 42 ∧
    (Crypto.assemble_mp_header toyB toyE toyPk2048 none).pgpKeyId.length = 8 ∧
    (Crypto.assemble_mp_header toyB toyE toyPk2048 none).signature.length
      ≠ toyPk2048.key_size / 8 :=
  c6_decoy_signature_length toyB toyE toyPk2048 toyE_ok (by decide)

/-- C7: the identification-string offset computed by the helper equals 4 when
the second byte has its top bit clear and 4 plus the low seven bits of that
byte otherwise; and for every well-formed DER encoding of `MPHeader` whose
identification string is `FLOD`, the four bytes at the computed offset are
exactly `FLOD`. -/
theorem c7_id_string_offset_correct :
    (∀ der : List Nat, 2 ≤ der.length →
      Crypto.calculate_der_id_string_offset der =
        if der.getD 1 0 &&& 0x80 = 0 then 4 else 4 + (der.getD 1 0 &&& 0x7F)) ∧
    (∀ h : MPHeader, h.idString = Crypto.IS → (headerBody h).length < 256 ^ 126 →
      ((encodeMPHeader h).drop
        (Crypto.calculate_der_id_string_offset (encodeMPHeader h))).take 4
        = Crypto.IS) := by
  constructor
  · intro der _hlen
    unfold Crypto.calculate_der_id_string_offset
    have hd : der.getD 1 0 &&& 128 = 0 ∨ der.getD 1 0 &&& 128 = 128 := by
      set b := der.getD 1 0 with hb
      have h2 : b &&& 128 = (b.testBit 7).toNat * 128 := by
        have h3 := Nat.and_two_pow b 7
        norm_num at h3
        exact h3
      cases htb : b.testBit 7 with
      | false =>
        left
        rw [htb] at h2
        simpa using h2
      | true =>
        right
        rw [htb] at h2
        simpa using h2
    rcases hd with hd | hd
    · rw [if_neg (by omega), if_pos hd]
    · rw [if_pos hd, if_neg (by omega)]
      omega
  · intro h hid hlt
    exact Crypto.flod_at_offset h hid hlt

theorem c7_witness :
    Crypto.calculate_der_id_string_offset [48, 131, 0, 0, 7] =
      (if ([48, 131, 0, 0, 7] : List Nat).getD 1 0 &&& 0x80 = 0 then 4
       else 4 + (([48, 131, 0, 0, 7] : List Nat).getD 1 0 &&& 0x7F)) ∧
    ((encodeMPHeader toyHdr).drop
      (Crypto.calculate_der_id_string_offset (encodeMPHeader toyHdr))).take 4
      = Crypto.IS :=
  ⟨c7_id_string_offset_correct.1 [48, 131, 0, 0, 7] (by norm_num),
   c7_id_string_offset_correct.2 toyHdr rfl (by decide)⟩

/-- C8: assembly splits the DER-encoded header into consecutive chunks of
size keyBits/8 - 42 whose concatenation is the original DER, the number of
chunks is the ceiling of len/max, and the encrypted header is the
concatenation of one RSA block (keyBits/8 bytes) per chunk, hence an exact
multiple of the RSA block size. -/
theorem c8_header_chunking (B : Backend) (e : Entropy) (now msg : List Nat)
    (pk : RSAPublicKey) (sign : Option (RSAPrivateKey × List Nat))
    (hlen : ∀ pt : List Nat, pt.length ≤ pk.key_size / 8 - 42 →
      (B.rsaEncrypt pt pk).length = pk.key_size / 8)
    (hmax : 0 < pk.key_size / 8 - 42) :
    (Crypto.chunks (Crypto.get_rsa_max_bytestring_size pk.key_size)
        (encodeMPHeader (Crypto.assemble_mp_header B e pk sign))).flatten
      = encodeMPHeader (Crypto.assemble_mp_header B e pk sign) ∧
    (Crypto.chunks (Crypto.get_rsa_max_bytestring_size pk.key_size)
        (encodeMPHeader (Crypto.assemble_mp_header B e pk sign))).length
      = ((encodeMPHeader (Crypto.assemble_mp_header B e pk sign)).length +
          Crypto.get_rsa_max_bytestring_size pk.key_size - 1) /
        Crypto.get_rsa_max_bytestring_size pk.key_size ∧
    (Crypto.assemble_message_packet_struct B e now msg pk
        sign).headerBlock.encryptedHeader.length
      = (Crypto.chunks (Crypto.get_rsa_max_bytestring_size pk.key_size)
          (encodeMPHeader (Crypto.assemble_mp_header B e pk sign))).length *
        (pk.key_size / 8) ∧
    (Crypto.assemble_message_packet_struct B e now msg pk
        sign).headerBlock.encryptedHeader.length % (pk.key_size / 8) = 0 := by
  have hmx : Crypto.get_rsa_max_bytestring_size pk.key_size = pk.key_size / 8 - 42 := rfl
  have hposmx : 0 < Crypto.get_rsa_max_bytestring_size pk.key_size := by
    rw [hmx]
    exact hmax
  have hh : (Crypto.assemble_message_packet_struct B e now msg pk
      sign).headerBlock.encryptedHeader
      = ((Crypto.chunks (Crypto.get_rsa_max_bytestring_size pk.key_size)
          (encodeMPHeader (Crypto.assemble_mp_header B e pk sign))).map
            (fun c => B.rsaEncrypt c pk)).flatten := by
    show ((Crypto.chunks (Crypto.get_rsa_max_bytestring_size pk.key_size)
        (encodeMPHeader (Crypto.assemble_mp_header B e pk sign))).foldl
          (fun acc blk => acc ++ B.rsaEncrypt blk pk) []) = _
    rw [Crypto.foldl_append_eq_flatten_map]
    simp
  have hlens : ∀ c ∈ Crypto.chunks (Crypto.get_rsa_max_bytestring_size pk.key_size)
      (encodeMPHeader (Crypto.assemble_mp_header B e pk sign)),
      (B.rsaEncrypt c pk).length = pk.key_size / 8 := by
    intro c hc
    apply hlen
    have := Crypto.chunks_mem_length_le (Crypto.get_rsa_max_bytestring_size pk.key_size)
      (encodeMPHeader (Crypto.assemble_mp_header B e pk sign)) c hc
    omega
  refine ⟨Crypto.chunks_flatten _ _ hposmx, Crypto.chunks_length_eq _ _ hposmx, ?_, ?_⟩
  · rw [hh, Crypto.flatten_map_length_const _ _ _ hlens]
  · rw [hh, Crypto.flatten_map_length_const _ _ _ hlens]
    exact Nat.mul_mod_left _ _

theorem c8_witness :
    (Crypto.assemble_message_packet_struct toyB toyE [50] [104] toyPk
        none).headerBlock.encryptedHeader.length % (toyPk.key_size / 8) = 0 :=
  (c8_header_chunking toyB toyE [50] [104] toyPk none
    (toyB_pair 7 1280 (by norm_num)).2.1 (by decide)).2.2.2

/-- C9: a signed header with all-zero PGPKeyID whose lookup yields an empty
tuple of candidate public keys drives the source into reading the loop
variable `verif_ok` that was never bound: the result is an unbound-local
runtime error, not a returned outcome and none of the three documented
exceptions. -/
theorem c9_empty_tuple_unbound_local (B : Backend) (e : Entropy) (now msg : List Nat)
    (pk : RSAPublicKey) (sk sks : RSAPrivateKey) (km : KeyManager)
    (hpair : B.RsaPairOk sk pk) (he : e.Ok) (hkm : km.yield_keys = [sk])
    (hsiglen : (B.pssSign (e.rand 1 16 ++ e.rand 2 20) sks).length < 256 ^ 100)
    (hk1 : 151 ≤ pk.key_size / 8)
    (hlook : km.get_pk_by_pgp_id (List.replicate 8 0) = LookupResult.tupleOf []) :
    Crypto.disassemble_message_packet B
      (Crypto.assemble_message_packet B e now msg pk (some (sks, List.replicate 8 0))) km
    = DisassembleResult.unboundLocalError := by
  have hself : Crypto.assemble_message_packet B e now msg pk
      (some (sks, List.replicate 8 0)) =
      encodeMessagePacket
        { Crypto.assemble_message_packet_struct B e now msg pk
            (some (sks, List.replicate 8 0)) with
          hmacBlock := Crypto.assemble_hmac_block B
            (encodeMPContentContainer (Crypto.assemble_content_block B now msg
              (e.rand 1 16) (e.rand 0 16))) (e.rand 2 20) } := rfl
  rw [hself]
  rw [Crypto.disassemble_assemble_signed_hb B e now msg pk sk sks (List.replicate 8 0) km
    _ hpair he hkm hsiglen (by simp) hk1]
  rw [hlook]

theorem c9_witness :
    Crypto.disassemble_message_packet toyB
      (Crypto.assemble_message_packet toyB toyE [50] [104] toyPk
        (some (toySks, List.replicate 8 0))) toyKm9
    = DisassembleResult.unboundLocalError :=
  c9_empty_tuple_unbound_local toyB toyE [50] [104] toyPk toySk toySks toyKm9
    (toyB_pair 7 1280 (by norm_num)) toyE_ok rfl (by decide) (by decide) (by decide)

/-- C10: in the all-zero-PGPKeyID branch the source asserts that the lookup
result is a tuple: a provider returning the candidates in any other collection
type such as a list makes the disassembly fail with an assertion error before
any verification is attempted. -/
theorem c10_list_lookup_assertion_error (B : Backend) (e : Entropy) (now msg : List Nat)
    (pk : RSAPublicKey) (sk sks : RSAPrivateKey) (km : KeyManager)
    (cands : List RSAPublicKey)
    (hpair : B.RsaPairOk sk pk) (he : e.Ok) (hkm : km.yield_keys = [sk])
    (hsiglen : (B.pssSign (e.rand 1 16 ++ e.rand 2 20) sks).length < 256 ^ 100)
    (hk1 : 151 ≤ pk.key_size / 8)
    (hlook : km.get_pk_by_pgp_id (List.replicate 8 0) = LookupResult.listOf cands) :
    Crypto.disassemble_message_packet B
      (Crypto.assemble_message_packet B e now msg pk (some (sks, List.replicate 8 0))) km
    = DisassembleResult.assertionError := by
  have hself : Crypto.assemble_message_packet B e now msg pk
      (some (sks, List.replicate 8 0)) =
      encodeMessagePacket
        { Crypto.assemble_message_packet_struct B e now msg pk
            (some (sks, List.replicate 8 0)) with
          hmacBlock := Crypto.assemble_hmac_block B
            (encodeMPContentContainer (Crypto.assemble_content_block B now msg
              (e.rand 1 16) (e.rand 0 16))) (e.rand 2 20) } := rfl
  rw [hself]
  rw [Crypto.disassemble_assemble_signed_hb B e now msg pk sk sks (List.replicate 8 0) km
    _ hpair he hkm hsiglen (by simp) hk1]
  rw [hlook]

theorem c10_witness :
    Crypto.disassemble_message_packet toyB
      (Crypto.assemble_message_packet toyB toyE [50] [104] toyPk
        (some (toySks, List.replicate 8 0))) toyKm10
    = DisassembleResult.assertionError :=
  c10_list_lookup_assertion_error toyB toyE [50] [104] toyPk toySk toySks toyKm10 [toySpk]
    (toyB_pair 7 1280 (by norm_num)) toyE_ok rfl (by decide) (by decide) (by decide)

end Mflod
